import Mathlib

/-
Verification development for the mailers-mock repository.

The core component is the in-memory mail store (`MailHandler`): the repository
ships its test suite (test/server/handler/MailHandler.test.ts) and its callers
(src/server/Server.ts, src/server/RequestHandler.ts), but the module
src/server/handler/MailHandler.ts itself is not part of the provided sources.
The store is therefore modelled from the specification (spec.md §3, §4.1, §6,
§7), with each modelled definition marked accordingly.  The GET /api/mails
adapter is embedded directly from src/server/RequestHandler.ts.

Modelling conventions:
- instants are integer unix milliseconds (JavaScript `Date.getTime()`);
- ISO-8601 timestamp strings arriving in filters are represented by their
  parsed integer instant (parsing the wire text is adapter marshalling);
- JavaScript objects (custom args, delivery-event payloads) are association
  lists of string keys and JSON-like values, and object spread is modelled by
  `objSet`/`mergeObjs` (a later key wins, as in a JS spread);
- fresh uuid generation is modelled by a deterministic counter threaded
  through the store state (`genId`).
-/

namespace MailersMock

/-- JSON-like values carried by custom arguments and delivery-event fields. -/
inductive JVal where
  | str : String → JVal
  | num : Int → JVal
  | arr : List String → JVal
  deriving DecidableEq, Repr

/-- A JavaScript object, as an association list of key/value pairs. -/
abbrev CustomArgs := List (String × JVal)

/-- Lookup of a key in an object: the first matching pair wins. -/
def assocLookup : CustomArgs → String → Option JVal
  | [], _ => none
  | kv :: rest, k => if k = kv.1 then some kv.2 else assocLookup rest k

/-- First-some choice on optional values. -/
def optOr (a b : Option JVal) : Option JVal :=
  match a with
  | some v => some v
  | none => b

/-- Setting a key in an object (JS assignment: the new value replaces any
existing binding for that key). -/
def objSet (o : CustomArgs) (k : String) (v : JVal) : CustomArgs :=
  o.filter (fun p => p.1 != k) ++ [(k, v)]

/-- JavaScript object spread: every binding of `b` overrides `a`. -/
def mergeObjs (a b : CustomArgs) : CustomArgs :=
  b.foldl (fun acc p => objSet acc p.1 p.2) a

/-- Lookup honouring the duplicate-key rule of a JS object literal: the last
binding of a key wins. -/
def revLookup (o : CustomArgs) (k : String) : Option JVal :=
  assocLookup o.reverse k

/-- A recipient address entry (spec §3: entries of `to`/`cc`/`bcc` lists). -/
structure EmailAddr where
  email : String
  name : Option String := none
  deriving DecidableEq, Repr

/-- One `{type, value}` content pair (spec §3). -/
structure ContentPart where
  type : String
  value : String
  deriving DecidableEq, Repr

/-- A personalization: recipient groups plus optional custom args (spec §3). -/
structure Personalization where
  «to» : List EmailAddr := []
  cc : List EmailAddr := []
  bcc : List EmailAddr := []
  custom_args : CustomArgs := []
  deriving DecidableEq, Repr

/-- The caller-supplied mail record handed to `addMail` (spec §3: all fields
optional, the store is permissive). -/
structure MailInput where
  sender : Option EmailAddr := none
  subject : Option String := none
  content : List ContentPart := []
  personalizations : List Personalization := []
  template_id : Option String := none
  categories : Option (List String) := none
  custom_args : CustomArgs := []
  datetime : Option Int := none
  deriving DecidableEq, Repr

/-- A stored mail record: as the input, but with a store-assigned `id` and a
concrete `datetime` (spec §3 invariants). -/
structure Mail where
  id : String
  sender : Option EmailAddr := none
  subject : Option String := none
  content : List ContentPart := []
  personalizations : List Personalization := []
  template_id : Option String := none
  categories : Option (List String) := none
  custom_args : CustomArgs := []
  datetime : Int
  deriving DecidableEq, Repr

/-- Modelled from the spec: the state of the missing MailHandler module —
the ordered collection (newest first), the retention window in milliseconds,
the optional EVENT_DELIVERY_URL target, and the uuid counter that models
fresh id generation. -/
structure MailState where
  mails : List Mail := []
  retention : Int
  eventUrl : Option String := none
  counter : Nat := 0
  deriving DecidableEq, Repr

/-- Deterministic stand-in for `crypto.randomUUID()`. -/
def genId (n : Nat) : String :=
  "uuid-" ++ toString n

/-! ### The match rule for `to` / `subject` filters -/

/-- Tests whether `needle` occurs at the head of `hay`. -/
def startsHere : List Char → List Char → Bool
  | [], _ => true
  | _ :: _, [] => false
  | a :: as, b :: bs => a == b && startsHere as bs

/-- Case-sensitive substring containment test (JS `String.includes`). -/
def hasSegment (needle : List Char) : List Char → Bool
  | [] => startsHere needle []
  | c :: rest => startsHere needle (c :: rest) || hasSegment needle rest

/-- Whether a filter value is wrapped in percent signs (`%...%`). -/
def isWrapped (v : String) : Bool :=
  decide (2 ≤ v.data.length) && v.data.head? == some '%' && v.data.getLast? == some '%'

/-- The unwrapped value of a `%...%` filter. -/
def unwrapVal (v : String) : List Char :=
  (v.data.drop 1).dropLast

/-- Modelled from the spec: the match rule of the missing MailHandler for
`to`/`subject` filter values — a `%...%` wrapped value is a case-sensitive
substring containment test against the unwrapped value, anything else is an
exact-match test (spec §4.1 getMails). -/
def matchValue (v target : String) : Bool :=
  if isWrapped v then hasSegment (unwrapVal v) target.data else target == v

/-- The match rule, stated as a proposition in the words of the spec. -/
def MatchStr (v target : String) : Prop :=
  if isWrapped v then ∃ l r, target.data = l ++ unwrapVal v ++ r else target = v

/-- Modelled from the spec: a mail matches a `to` filter value when any
personalization has any `to` entry whose address satisfies the match rule. -/
def toFieldMatches (v : String) (m : Mail) : Bool :=
  m.personalizations.any (fun p => p.to.any (fun t => matchValue v t.email))

/-- The filter criteria accepted by getMails (spec §4.1): every field
optional, absent means match-all; `dateTimeSince` carries the parsed
instant of the ISO-8601 timestamp. -/
structure MailFilter where
  «to» : Option String := none
  subject : Option String := none
  dateTimeSince : Option Int := none
  deriving DecidableEq, Repr

/-- Modelled from the spec: conjunction (AND) of the supplied filters; a
`dateTimeSince` filter matches records whose datetime is strictly after the
given instant. -/
def mailMatches (f : MailFilter) (m : Mail) : Bool :=
  (match f.to with
   | none => true
   | some v => toFieldMatches v m) &&
  (match f.subject with
   | none => true
   | some v => matchValue v (m.subject.getD "")) &&
  (match f.dateTimeSince with
   | none => true
   | some d => decide (d < m.datetime))

/-! ### Pagination and reads -/

/-- The pagination criteria of getMails (spec §4.1): 1-based `page`
defaulting to 1, `pageSize` defaulting to 10. -/
structure Pagination where
  page : Option Int := none
  pageSize : Option Int := none
  deriving DecidableEq, Repr

/-- Modelled from the spec: page `p` with size `s` returns the half-open
slice beginning at `(p-1)*s` of length `s`; out-of-range pages give an empty
sequence, never an error. -/
def paginate (xs : List Mail) (pg : Pagination) : List Mail :=
  let p := pg.page.getD 1
  let size := pg.pageSize.getD 10
  if 1 ≤ p ∧ 0 ≤ size then (xs.drop ((p - 1) * size).toNat).take size.toNat
  else []

/-- The half-open slice of positions `[a, b)` of a list, in the words the
spec uses to describe pagination. -/
def sliceSeq (xs : List Mail) (a b : Nat) : List Mail :=
  (xs.drop a).take (b - a)

/-- Modelled from the spec: getMails filters the collection (newest first)
with AND semantics and then paginates; it has no side effects on the
collection and in particular performs no expiry sweep. -/
def getMails (s : MailState) (f : MailFilter) (pg : Pagination) : List Mail :=
  paginate (s.mails.filter (fun m => mailMatches f m)) pg

/-! ### clear and deleteMailById -/

/-- Modelled from the spec: clear removes every record matching the `to`
filter (same match rule as getMails); no filter removes all records. -/
def clear (s : MailState) (f : Option String) : MailState :=
  match f with
  | none => { s with mails := [] }
  | some v => { s with mails := s.mails.filter (fun m => ! toFieldMatches v m) }

/-- Removes the first record carrying the given id, if any. -/
def removeFirstById : List Mail → String → Option (List Mail)
  | [], _ => none
  | m :: rest, mid =>
    if m.id = mid then some rest
    else
      match removeFirstById rest mid with
      | none => none
      | some l => some (m :: l)

/-- Modelled from the spec: deleteMailById removes exactly the record with
the given id if present and reports whether one was removed; a missing id
(or an empty store) yields false without error. -/
def deleteMailById (s : MailState) (mid : String) : Bool × MailState :=
  match removeFirstById s.mails mid with
  | none => (false, s)
  | some l => (true, { s with mails := l })

/-! ### Delivery events (spec §4.1 step 5 and §6) -/

/-- The seven reserved field names of a delivery-event object (spec §6). -/
def reservedKeys : List String :=
  ["email", "event", "timestamp", "sg_event_id", "sg_message_id", "smtp-id", "category"]

/-- Modelled from the spec: one "delivered" event object — the mail-level
custom args, overridden by the personalization-level custom args, overridden
by the seven store-derived reserved fields (spec §6 payload shape). -/
def buildEvent (mailArgs persArgs : CustomArgs) (recipient : String) (ts : Int)
    (eventId msgId smtpId : String) (cats : List String) : CustomArgs :=
  mergeObjs (mergeObjs mailArgs persArgs)
    [("email", JVal.str recipient),
     ("event", JVal.str "delivered"),
     ("timestamp", JVal.num ts),
     ("sg_event_id", JVal.str eventId),
     ("sg_message_id", JVal.str msgId),
     ("smtp-id", JVal.str smtpId),
     ("category", JVal.arr cats)]

/-- Events for one personalization: one per `to` entry, in order, each with
freshly generated sg_event_id and smtp-id; returns the advanced counter. -/
def buildRecipientEvents (mailArgs persArgs : CustomArgs) (cats : List String)
    (msgId : String) (ts : Int) : List EmailAddr → Nat → List CustomArgs × Nat
  | [], ctr => ([], ctr)
  | t :: rest, ctr =>
    let e := buildEvent mailArgs persArgs t.email ts (genId ctr) msgId (genId (ctr + 1)) cats
    let p := buildRecipientEvents mailArgs persArgs cats msgId ts rest (ctr + 2)
    (e :: p.1, p.2)

/-- Events for a whole mail: flattened across all personalizations' `to`
lists, in order. -/
def buildMailEvents (mailArgs : CustomArgs) (cats : List String)
    (msgId : String) (ts : Int) : List Personalization → Nat → List CustomArgs × Nat
  | [], ctr => ([], ctr)
  | p :: ps, ctr =>
    let r1 := buildRecipientEvents mailArgs p.custom_args cats msgId ts p.to ctr
    let r2 := buildMailEvents mailArgs cats msgId ts ps r1.2
    (r1.1 ++ r2.1, r2.2)

/-- The one outbound call issued by an addMail when a target is configured. -/
structure DispatchCall where
  url : String
  events : List CustomArgs
  deriving DecidableEq, Repr

/-- Result of an addMail call: the new store state plus the optional
fire-and-forget event dispatch. -/
structure AddResult where
  state : MailState
  dispatch : Option DispatchCall
  deriving DecidableEq, Repr

/-! ### addMail -/

/-- The record as stored: fresh id assigned, datetime stamped with the
current time when the input has none (spec §4.1 steps 1-2). -/
def stampMail (rec : MailInput) (newId : String) (now : Int) : Mail :=
  { id := newId
    sender := rec.sender
    subject := rec.subject
    content := rec.content
    personalizations := rec.personalizations
    template_id := rec.template_id
    categories := rec.categories
    custom_args := rec.custom_args
    datetime := rec.datetime.getD now }

/-- Modelled from the spec: the expiry sweep — remove every record whose
datetime is strictly older than `now - retention` (boundary exclusive). -/
def sweep (mails : List Mail) (now retention : Int) : List Mail :=
  mails.filter (fun m => decide (now - retention ≤ m.datetime))

/-- Modelled from the spec: addMail of the missing MailHandler — assign a
fresh id, stamp the datetime, insert at the head, sweep, and (when an event
target is configured) dispatch one outbound call carrying one "delivered"
event per resolved recipient (spec §4.1). -/
def addMail (s : MailState) (rec : MailInput) (messageId : Option String) (now : Int) :
    AddResult :=
  let newMail := stampMail rec (genId s.counter) now
  let sweptMails := sweep (newMail :: s.mails) now s.retention
  let msgId := messageId.getD (genId (s.counter + 1))
  let built := buildMailEvents rec.custom_args (rec.categories.getD []) msgId (now / 1000)
    rec.personalizations (s.counter + 2)
  { state := { s with mails := sweptMails, counter := built.2 }
    dispatch := s.eventUrl.map (fun url => { url := url, events := built.1 }) }

/-! ### Construction and the retention duration -/

/-- Collects the leading decimal digits of a character list. -/
def takeDigits : List Char → List Char × List Char
  | [] => ([], [])
  | c :: rest =>
    if c.isDigit then
      let p := takeDigits rest
      (c :: p.1, p.2)
    else ([], c :: rest)

/-- Numeric value of a list of decimal digits. -/
def digitsToNat (ds : List Char) : Nat :=
  ds.foldl (fun acc c => acc * 10 + (c.toNat - 48)) 0

/-- Finds a unit designator in the remaining allowed units, returning its
multiplier and the units that may still follow it (enforcing ISO-8601
component order). -/
def dropToUnit : List (Char × Int) → Char → Option (Int × List (Char × Int))
  | [], _ => none
  | u :: rest, d => if u.1 = d then some (u.2, rest) else dropToUnit rest d

/-- Parses a run of `<number><designator>` components against an ordered
unit table, returning the accumulated milliseconds and the unconsumed
input.  Fuelled recursion; the callers pass enough fuel for the input. -/
def parseUnits : Nat → List (Char × Int) → List Char → Option (Int × List Char)
  | 0, _, cs => if cs.isEmpty then some (0, []) else none
  | fuel + 1, units, cs =>
    match cs with
    | [] => some (0, [])
    | c :: _ =>
      if c.isDigit then
        let p := takeDigits cs
        match p.2 with
        | [] => none
        | d :: rest =>
          match dropToUnit units d with
          | none => none
          | some (mult, remaining) =>
            match parseUnits fuel remaining rest with
            | none => none
            | some (v, fin) => some ((digitsToNat p.1 : Int) * mult + v, fin)
      else some (0, cs)

/-- Millisecond multipliers of the ISO-8601 date designators (year and month
use the 365-day / 30-day civil conventions). -/
def dateUnits : List (Char × Int) :=
  [('Y', 31536000000), ('M', 2592000000), ('W', 604800000), ('D', 86400000)]

/-- Millisecond multipliers of the ISO-8601 time designators. -/
def timeUnits : List (Char × Int) :=
  [('H', 3600000), ('M', 60000), ('S', 1000)]

/-- Modelled from the spec: parsing of the ISO-8601 retention duration text
(for example `PT24H`); returns the window in milliseconds, or none when the
text is not a valid duration. -/
def parseISODuration (s : String) : Option Int :=
  match s.data with
  | 'P' :: rest =>
    match parseUnits (rest.length + 1) dateUnits rest with
    | none => none
    | some (dv, rem) =>
      match rem with
      | [] => if rest.isEmpty then none else some dv
      | 'T' :: trest =>
        match parseUnits (trest.length + 1) timeUnits trest with
        | none => none
        | some (tv, trem) =>
          match trem with
          | [] => if trest.isEmpty then none else some (dv + tv)
          | _ :: _ => none
      | _ :: _ => none
  | _ => none

/-- The default retention window: 24 hours, in milliseconds (spec §4.1). -/
def defaultRetentionMs : Int := 86400000

/-- The construction-time error of spec §7. -/
inductive ConfigError where
  | invalidConfiguration
  deriving DecidableEq, Repr

/-- A freshly constructed store state with the given retention window. -/
def emptyState (retention : Int) (eventUrl : Option String) : MailState :=
  { mails := [], retention := retention, eventUrl := eventUrl, counter := 0 }

/-- Modelled from the spec: the MailHandler constructor — an absent duration
defaults to 24 hours, invalid ISO-8601 duration text is a construction-time
InvalidConfiguration error, never deferred to insert time (spec §4.1, §7). -/
def mkMailHandler (durationText : Option String) (eventUrl : Option String) :
    Except ConfigError MailState :=
  match durationText with
  | none => Except.ok (emptyState defaultRetentionMs eventUrl)
  | some txt =>
    match parseISODuration txt with
    | none => Except.error ConfigError.invalidConfiguration
    | some d => Except.ok (emptyState d eventUrl)

/-! ### The GET /api/mails adapter (src/src/server/RequestHandler.ts) -/

/-- The query string of a GET /api/mails request, each parameter optional;
numeric parameters are represented by their parsed values (the route applies
JavaScript `Number(...)` to the raw text) and `dateTimeSince` by its parsed
instant. -/
structure MailsQuery where
  «to» : Option String := none
  subject : Option String := none
  dateTimeSince : Option Int := none
  page : Option Int := none
  pageSize : Option Int := none
  deriving DecidableEq, Repr

/-- Embedding of the GET /api/mails route of src/src/server/RequestHandler.ts
(lines 255-271): filterCriteria passes the query fields through, and
paginationCriteria is `Number(req.query.page ?? 0)` and
`Number(req.query.pageSize ?? 10)`; the response body is the getMails
result. -/
def handleGetMails (s : MailState) (q : MailsQuery) : List Mail :=
  let filterCriteria : MailFilter :=
    { «to» := q.to, subject := q.subject, dateTimeSince := q.dateTimeSince }
  let paginationCriteria : Pagination :=
    { page := some (q.page.getD 0), pageSize := some (q.pageSize.getD 10) }
  getMails s filterCriteria paginationCriteria

/-! ### Example records and states used by concrete instances -/

/-- A mail-like input record in the shape the test suite uses. -/
def exRec (subj : String) : MailInput :=
  { subject := some subj
    sender := some { email := "from@example.com" }
    content := [{ type := "text/plain", value := "important content" }]
    personalizations := [{ «to» := [{ email := "to@example.com" }, { email := "to2@example.com" }] }]
    categories := some ["important"] }

/-- Three records inserted in order with subjects "1", "2", "3". -/
def exState3 : MailState :=
  (addMail (addMail (addMail (emptyState defaultRetentionMs none) (exRec "1") none 0).state
    (exRec "2") none 0).state (exRec "3") none 0).state

/-- A stored record far older than any retention window. -/
def oldMailEx : Mail :=
  { id := "uuid-9", subject := some "old", datetime := 0 }

/-- A store still holding an expired record (no insert has happened since it
expired). -/
def expiredStateEx : MailState :=
  { mails := [oldMailEx], retention := defaultRetentionMs, eventUrl := none, counter := 10 }

/-! ### Lemmas about the match rule -/

theorem startsHere_iff (n : List Char) : ∀ h, startsHere n h = true ↔ ∃ r, h = n ++ r := by
  induction n with
  | nil =>
    intro h
    simp [startsHere]
  | cons a as ih =>
    intro h
    cases h with
    | nil =>
      simp [startsHere]
    | cons b bs =>
      simp only [startsHere, Bool.and_eq_true, beq_iff_eq, ih, List.cons_append]
      constructor
      · rintro ⟨hab, r, hr⟩
        subst hab
        exact ⟨r, by rw [hr]⟩
      · rintro ⟨r, hr⟩
        injection hr with h1 h2
        exact ⟨h1.symm, r, h2⟩

theorem hasSegment_iff (n : List Char) : ∀ h, hasSegment n h = true ↔ ∃ l r, h = l ++ n ++ r := by
  intro h
  induction h with
  | nil =>
    simp only [hasSegment, startsHere_iff]
    constructor
    · rintro ⟨r, hr⟩
      exact ⟨[], r, by simpa using hr⟩
    · rintro ⟨l, r, hlr⟩
      rw [List.append_assoc] at hlr
      obtain ⟨hl, hn, hr⟩ := by simpa [List.append_eq_nil] using hlr.symm
      exact ⟨r, by rw [hn, hr]; rfl⟩
  | cons c rest ih =>
    simp only [hasSegment, Bool.or_eq_true, startsHere_iff, ih]
    constructor
    · rintro (⟨r, hr⟩ | ⟨l, r, hlr⟩)
      · exact ⟨[], r, by simpa using hr⟩
      · exact ⟨c :: l, r, by simp [hlr]⟩
    · rintro ⟨l, r, hlr⟩
      cases l with
      | nil =>
        left
        exact ⟨r, by simpa using hlr⟩
      | cons x xs =>
        right
        rw [List.cons_append, List.cons_append] at hlr
        injection hlr with h1 h2
        exact ⟨xs, r, by rw [h2, List.append_assoc]⟩

theorem matchValue_iff (v t : String) : matchValue v t = true ↔ MatchStr v t := by
  by_cases hw : isWrapped v = true
  · simp [matchValue, MatchStr, hw, hasSegment_iff]
  · simp [matchValue, MatchStr, hw]

theorem toFieldMatches_iff (v : String) (m : Mail) :
    toFieldMatches v m = true ↔
      ∃ p ∈ m.personalizations, ∃ t ∈ p.to, MatchStr v t.email := by
  simp [toFieldMatches, List.any_eq_true, matchValue_iff]

theorem mailMatches_iff (f : MailFilter) (m : Mail) :
    mailMatches f m = true ↔
      ((∀ v, f.to = some v → ∃ p ∈ m.personalizations, ∃ t ∈ p.to, MatchStr v t.email) ∧
       (∀ v, f.subject = some v → MatchStr v (m.subject.getD "")) ∧
       (∀ d, f.dateTimeSince = some d → d < m.datetime)) := by
  obtain ⟨fto, fsub, fdt⟩ := f
  cases fto <;> cases fsub <;> cases fdt <;>
    simp [mailMatches, toFieldMatches_iff, matchValue_iff, and_assoc]

theorem mailMatches_empty (m : Mail) : mailMatches {} m = true := rfl

theorem filter_mailMatches_empty (l : List Mail) :
    l.filter (fun m => mailMatches {} m) = l :=
  List.filter_eq_self.mpr (fun m _ => mailMatches_empty m)

/-! ### Lemmas about object lookup and spread -/

theorem optOr_none_right (a : Option JVal) : optOr a none = a := by
  cases a <;> rfl

theorem optOr_none_left (b : Option JVal) : optOr none b = b := rfl

theorem assocLookup_append (l1 l2 : CustomArgs) (k : String) :
    assocLookup (l1 ++ l2) k = optOr (assocLookup l1 k) (assocLookup l2 k) := by
  induction l1 with
  | nil => simp [assocLookup, optOr]
  | cons kv rest ih =>
    by_cases h : k = kv.1 <;> simp [assocLookup, h, optOr, ih]

theorem assocLookup_filter_self (o : CustomArgs) (k : String) :
    assocLookup (o.filter (fun p => p.1 != k)) k = none := by
  induction o with
  | nil => rfl
  | cons kv rest ih =>
    by_cases h : kv.1 = k
    · simp [h, ih]
    · have hk2 : ¬ (k = kv.1) := fun hk => h hk.symm
      simp [List.filter_cons, h, assocLookup, hk2, ih]

theorem assocLookup_filter_ne (o : CustomArgs) (k q : String) (hq : q ≠ k) :
    assocLookup (o.filter (fun p => p.1 != k)) q = assocLookup o q := by
  induction o with
  | nil => rfl
  | cons kv rest ih =>
    by_cases h : kv.1 = k
    · simp [h, assocLookup, ih, hq]
    · simp only [List.filter_cons, bne_iff_ne, ne_eq, h, not_false_eq_true, ite_true, if_pos,
        decide_not]
      by_cases h2 : q = kv.1 <;> simp [assocLookup, h2, ih]

theorem assocLookup_objSet (o : CustomArgs) (k : String) (v : JVal) (q : String) :
    assocLookup (objSet o k v) q = if q = k then some v else assocLookup o q := by
  unfold objSet
  rw [assocLookup_append]
  by_cases h : q = k
  · subst h
    rw [assocLookup_filter_self]
    simp [assocLookup, optOr]
  · rw [assocLookup_filter_ne o k q h]
    simp [assocLookup, h, optOr_none_right]

theorem assocLookup_mergeObjs (b a : CustomArgs) (k : String) :
    assocLookup (mergeObjs a b) k = optOr (revLookup b k) (assocLookup a k) := by
  induction b generalizing a with
  | nil => simp [mergeObjs, revLookup, assocLookup, optOr]
  | cons p ps ih =>
    have hstep : mergeObjs a (p :: ps) = mergeObjs (objSet a p.1 p.2) ps := rfl
    rw [hstep, ih]
    have hrev : revLookup (p :: ps) k
        = optOr (revLookup ps k) (if k = p.1 then some p.2 else none) := by
      simp only [revLookup, List.reverse_cons, assocLookup_append]
      simp [assocLookup]
    rw [hrev, assocLookup_objSet]
    cases hc : revLookup ps k <;> by_cases h : k = p.1 <;> simp [optOr, h]

theorem assocLookup_eq_none_of_not_mem (o : CustomArgs) (k : String)
    (h : k ∉ o.map Prod.fst) : assocLookup o k = none := by
  induction o with
  | nil => rfl
  | cons kv rest ih =>
    simp only [List.map_cons, List.mem_cons, not_or] at h
    simp only [assocLookup, if_neg h.1]
    exact ih h.2

theorem revLookup_eq_assocLookup (o : CustomArgs) (k : String)
    (h : (o.map Prod.fst).Nodup) : revLookup o k = assocLookup o k := by
  induction o with
  | nil => rfl
  | cons kv rest ih =>
    simp only [List.map_cons, List.nodup_cons] at h
    have hrev : revLookup (kv :: rest) k
        = optOr (revLookup rest k) (if k = kv.1 then some kv.2 else none) := by
      simp only [revLookup, List.reverse_cons, assocLookup_append]
      simp [assocLookup]
    rw [hrev]
    by_cases hk : k = kv.1
    · subst hk
      have hnone : revLookup rest kv.1 = none := by
        apply assocLookup_eq_none_of_not_mem
        rw [List.map_reverse, List.mem_reverse]
        exact h.1
      simp [assocLookup, hnone, optOr]
    · simp [assocLookup, hk, optOr_none_right, ih h.2]

/-! ### Lemmas about delivery events -/

theorem assocLookup_buildEvent_reserved (mailArgs persArgs : CustomArgs) (r : String)
    (ts : Int) (eventId msgId smtpId : String) (cats : List String) :
    assocLookup (buildEvent mailArgs persArgs r ts eventId msgId smtpId cats) "email"
        = some (JVal.str r) ∧
    assocLookup (buildEvent mailArgs persArgs r ts eventId msgId smtpId cats) "event"
        = some (JVal.str "delivered") ∧
    assocLookup (buildEvent mailArgs persArgs r ts eventId msgId smtpId cats) "timestamp"
        = some (JVal.num ts) ∧
    assocLookup (buildEvent mailArgs persArgs r ts eventId msgId smtpId cats) "sg_event_id"
        = some (JVal.str eventId) ∧
    assocLookup (buildEvent mailArgs persArgs r ts eventId msgId smtpId cats) "sg_message_id"
        = some (JVal.str msgId) ∧
    assocLookup (buildEvent mailArgs persArgs r ts eventId msgId smtpId cats) "smtp-id"
        = some (JVal.str smtpId) ∧
    assocLookup (buildEvent mailArgs persArgs r ts eventId msgId smtpId cats) "category"
        = some (JVal.arr cats) := by
  have hb : buildEvent mailArgs persArgs r ts eventId msgId smtpId cats
      = objSet (objSet (objSet (objSet (objSet (objSet (objSet
          (mergeObjs mailArgs persArgs)
          "email" (JVal.str r)) "event" (JVal.str "delivered"))
          "timestamp" (JVal.num ts)) "sg_event_id" (JVal.str eventId))
          "sg_message_id" (JVal.str msgId)) "smtp-id" (JVal.str smtpId))
          "category" (JVal.arr cats) := rfl
  rw [hb]
  refine ⟨?_, ?_, ?_, ?_, ?_, ?_, ?_⟩ <;> simp [assocLookup_objSet]

theorem assocLookup_buildEvent_not_reserved (mailArgs persArgs : CustomArgs) (r : String)
    (ts : Int) (eventId msgId smtpId : String) (cats : List String) (k : String)
    (hk : k ∉ reservedKeys) :
    assocLookup (buildEvent mailArgs persArgs r ts eventId msgId smtpId cats) k
      = optOr (revLookup persArgs k) (assocLookup mailArgs k) := by
  simp only [reservedKeys, List.mem_cons, List.not_mem_nil, or_false, not_or] at hk
  obtain ⟨h1, h2, h3, h4, h5, h6, h7⟩ := hk
  have hb : buildEvent mailArgs persArgs r ts eventId msgId smtpId cats
      = objSet (objSet (objSet (objSet (objSet (objSet (objSet
          (mergeObjs mailArgs persArgs)
          "email" (JVal.str r)) "event" (JVal.str "delivered"))
          "timestamp" (JVal.num ts)) "sg_event_id" (JVal.str eventId))
          "sg_message_id" (JVal.str msgId)) "smtp-id" (JVal.str smtpId))
          "category" (JVal.arr cats) := rfl
  rw [hb]
  simp only [assocLookup_objSet, if_neg h1, if_neg h2, if_neg h3, if_neg h4, if_neg h5,
    if_neg h6, if_neg h7]
  exact assocLookup_mergeObjs persArgs mailArgs k

theorem buildRecipientEvents_length (mailArgs persArgs : CustomArgs) (cats : List String)
    (msgId : String) (ts : Int) :
    ∀ (tos : List EmailAddr) (ctr : Nat),
      (buildRecipientEvents mailArgs persArgs cats msgId ts tos ctr).1.length = tos.length := by
  intro tos
  induction tos with
  | nil => intro ctr; rfl
  | cons t rest ih =>
    intro ctr
    simp [buildRecipientEvents, ih]

theorem buildMailEvents_length (mailArgs : CustomArgs) (cats : List String)
    (msgId : String) (ts : Int) :
    ∀ (ps : List Personalization) (ctr : Nat),
      (buildMailEvents mailArgs cats msgId ts ps ctr).1.length
        = (ps.map (fun p => p.to.length)).sum := by
  intro ps
  induction ps with
  | nil => intro ctr; rfl
  | cons p rest ih =>
    intro ctr
    simp [buildMailEvents, buildRecipientEvents_length, ih]

theorem buildRecipientEvents_mem (mailArgs persArgs : CustomArgs) (cats : List String)
    (msgId : String) (ts : Int) :
    ∀ (tos : List EmailAddr) (ctr : Nat) (e : CustomArgs),
      e ∈ (buildRecipientEvents mailArgs persArgs cats msgId ts tos ctr).1 →
      ∃ t ∈ tos, ∃ c : Nat,
        e = buildEvent mailArgs persArgs t.email ts (genId c) msgId (genId (c + 1)) cats := by
  intro tos
  induction tos with
  | nil =>
    intro ctr e he
    simp [buildRecipientEvents] at he
  | cons t rest ih =>
    intro ctr e he
    simp only [buildRecipientEvents, List.mem_cons] at he
    rcases he with he | he
    · exact ⟨t, List.mem_cons_self t rest, ctr, he⟩
    · obtain ⟨t2, ht2, c, hc⟩ := ih (ctr + 2) e he
      exact ⟨t2, List.mem_cons_of_mem t ht2, c, hc⟩

theorem buildMailEvents_mem (mailArgs : CustomArgs) (cats : List String)
    (msgId : String) (ts : Int) :
    ∀ (ps : List Personalization) (ctr : Nat) (e : CustomArgs),
      e ∈ (buildMailEvents mailArgs cats msgId ts ps ctr).1 →
      ∃ p ∈ ps, ∃ t ∈ p.to, ∃ c : Nat,
        e = buildEvent mailArgs p.custom_args t.email ts (genId c) msgId (genId (c + 1)) cats := by
  intro ps
  induction ps with
  | nil =>
    intro ctr e he
    simp [buildMailEvents] at he
  | cons p rest ih =>
    intro ctr e he
    simp only [buildMailEvents, List.mem_append] at he
    rcases he with he | he
    · obtain ⟨t, ht, c, hc⟩ := buildRecipientEvents_mem mailArgs p.custom_args cats msgId ts
        p.to ctr e he
      exact ⟨p, List.mem_cons_self p rest, t, ht, c, hc⟩
    · obtain ⟨p2, hp2, t, ht, c, hc⟩ := ih _ e he
      exact ⟨p2, List.mem_cons_of_mem p hp2, t, ht, c, hc⟩

/-! ### Lemmas about reads and pagination -/

theorem getMails_full (s : MailState) (f : MailFilter) :
    getMails s f { page := some 1, pageSize := some ((s.mails.length : Int)) }
      = s.mails.filter (fun m => mailMatches f m) := by
  simp only [getMails, paginate, Option.getD_some]
  rw [if_pos ⟨le_refl (1:Int), Int.natCast_nonneg _⟩]
  have h1 : (((1:Int) - 1) * (s.mails.length : Int)).toNat = 0 := by norm_num
  have h2 : ((s.mails.length : Int)).toNat = s.mails.length := Int.toNat_natCast _
  rw [h1, h2, List.drop_zero]
  exact List.take_of_length_le (List.length_filter_le _ _)

theorem getMails_slice (s : MailState) (f : MailFilter) (p size : Int)
    (hp : 1 ≤ p) (hs : 0 ≤ size) :
    getMails s f { page := some p, pageSize := some size }
      = sliceSeq (s.mails.filter (fun m => mailMatches f m))
          ((p - 1) * size).toNat (p * size).toNat := by
  simp only [getMails, paginate, sliceSeq, Option.getD_some]
  rw [if_pos ⟨hp, hs⟩]
  congr 1
  have h1 : (0:Int) ≤ (p - 1) * size := mul_nonneg (by linarith) hs
  have h3 : (p - 1) * size + size = p * size := by ring
  rw [← h3, Int.toNat_add h1 hs, Nat.add_sub_cancel_left]

theorem getMails_sublist (s : MailState) (f : MailFilter) (pg : Pagination) :
    List.Sublist (getMails s f pg) s.mails := by
  simp only [getMails, paginate]
  split
  · exact ((List.take_sublist _ _).trans (List.drop_sublist _ _)).trans
      (List.filter_sublist _)
  · exact List.nil_sublist _

/-! ### Lemmas about deleteMailById -/

theorem removeFirstById_eq_none (mid : String) :
    ∀ l : List Mail, removeFirstById l mid = none ↔ ∀ m ∈ l, m.id ≠ mid := by
  intro l
  induction l with
  | nil => simp [removeFirstById]
  | cons m rest ih =>
    by_cases h : m.id = mid
    · simp [removeFirstById, h]
    · simp only [removeFirstById, if_neg h]
      cases hr : removeFirstById rest mid with
      | none =>
        simp only [List.mem_cons]
        constructor
        · intro _ x hx
          rcases hx with hx | hx
          · rw [hx]; exact h
          · exact (ih.mp hr) x hx
        · intro _; trivial
      | some l2 =>
        simp only [List.mem_cons]
        constructor
        · intro hc; exact absurd hc (by simp)
        · intro hall
          have : removeFirstById rest mid = none :=
            ih.mpr (fun x hx => hall x (Or.inr hx))
          rw [this] at hr
          exact absurd hr (by simp)

theorem removeFirstById_eq_some (mid : String) :
    ∀ (l r : List Mail), removeFirstById l mid = some r →
      ∃ l1 m l2, l = l1 ++ m :: l2 ∧ m.id = mid ∧ (∀ x ∈ l1, x.id ≠ mid) ∧ r = l1 ++ l2 := by
  intro l
  induction l with
  | nil =>
    intro r hr
    simp [removeFirstById] at hr
  | cons m rest ih =>
    intro r hr
    by_cases h : m.id = mid
    · rw [removeFirstById, if_pos h] at hr
      have hrr : rest = r := by injection hr
      exact ⟨[], m, rest, by simp, h, by simp, by simp [hrr]⟩
    · rw [removeFirstById, if_neg h] at hr
      cases hrec : removeFirstById rest mid with
      | none => rw [hrec] at hr; exact absurd hr (by simp)
      | some l2 =>
        rw [hrec] at hr
        have hrr : m :: l2 = r := by injection hr
        obtain ⟨l1, mm, l3, heq, hid, hno, hr2⟩ := ih l2 hrec
        refine ⟨m :: l1, mm, l3, by simp [heq], hid, ?_, ?_⟩
        · intro x hx
          rcases List.mem_cons.mp hx with hx | hx
          · rw [hx]; exact h
          · exact hno x hx
        · rw [← hrr, hr2]; rfl

/-! ### Claim theorems -/

/-- C1: for every store and every getMails call, the returned sequence is the
paginated form of exactly the stored records satisfying the AND of the
supplied filters, where a `to` filter matches when any personalization's any
`to` entry's address satisfies the match rule, a `subject` filter matches the
record's subject by the same rule, the rule is substring containment for
`%...%`-wrapped values and exact match otherwise, an absent field matches
every record, and `dateTimeSince` matches exactly the records whose datetime
is strictly after the given instant. -/
theorem getMails_filter_correct (s : MailState) (f : MailFilter) :
    (∀ pg : Pagination,
        getMails s f pg = paginate (s.mails.filter (fun m => mailMatches f m)) pg) ∧
    getMails s f { page := some 1, pageSize := some ((s.mails.length : Int)) }
      = s.mails.filter (fun m => mailMatches f m) ∧
    ∀ m : Mail, mailMatches f m = true ↔
      ((∀ v, f.to = some v → ∃ p ∈ m.personalizations, ∃ t ∈ p.to, MatchStr v t.email) ∧
       (∀ v, f.subject = some v → MatchStr v (m.subject.getD "")) ∧
       (∀ d, f.dateTimeSince = some d → d < m.datetime)) :=
  ⟨fun _ => rfl, getMails_full s f, fun m => mailMatches_iff f m⟩

theorem getMails_filter_correct_witness :
    getMails exState3 { «to» := some "%to2%" }
        { page := some 1, pageSize := some ((exState3.mails.length : Int)) }
      = exState3.mails.filter (fun m => mailMatches { «to» := some "%to2%" } m) :=
  (getMails_filter_correct exState3 { «to» := some "%to2%" }).2.1

/-- C2: every addMail ends with a sweep that keeps exactly the records (the
newly stamped one included) whose datetime is at least now minus the
retention window — i.e. it removes exactly those strictly older, boundary
exclusive; getMails performs no sweep (a full read returns every stored
record); the default retention is 24 hours, so a record inserted at T0 is
gone after a second insert at T0 + 24h + 1s. -/
theorem addMail_sweep_correct :
    (∀ (s : MailState) (rec : MailInput) (mid : Option String) (now : Int) (m : Mail),
        m ∈ (addMail s rec mid now).state.mails ↔
          ((m = stampMail rec (genId s.counter) now ∨ m ∈ s.mails) ∧
            now - s.retention ≤ m.datetime)) ∧
    (∀ (s : MailState) (f : MailFilter),
        getMails s f { page := some 1, pageSize := some ((s.mails.length : Int)) }
          = s.mails.filter (fun m => mailMatches f m)) ∧
    mkMailHandler none none = Except.ok (emptyState defaultRetentionMs none) ∧
    ((addMail (addMail (emptyState defaultRetentionMs none) (exRec "first") none 0).state
        (exRec "second") none 86401000).state.mails.map (fun m => (m.subject, m.datetime)))
      = [(some "second", 86401000)] := by
  refine ⟨?_, ?_, rfl, by decide⟩
  · intro s rec mid now m
    simp [addMail, sweep, List.mem_filter, List.mem_cons]
  · intro s f
    exact getMails_full s f

theorem addMail_sweep_correct_witness :
    oldMailEx ∈ (addMail expiredStateEx (exRec "new") none 172800000).state.mails ↔
      ((oldMailEx = stampMail (exRec "new") (genId expiredStateEx.counter) 172800000 ∨
          oldMailEx ∈ expiredStateEx.mails) ∧
        172800000 - expiredStateEx.retention ≤ oldMailEx.datetime) :=
  addMail_sweep_correct.1 expiredStateEx (exRec "new") none 172800000 oldMailEx

/-- C3: getMails paginates the filtered, newest-first sequence: 1-based page
p (default 1) with pageSize s (default 10) returns the half-open slice
[(p-1)*s, p*s), out-of-range pages give an empty sequence, and on three
records with subjects "1","2","3" inserted in order, pageSize 1 with the
default page returns "3" while page 3 returns "1". -/
theorem getMails_pagination_correct :
    (∀ (s : MailState) (f : MailFilter) (p size : Int), 1 ≤ p → 0 ≤ size →
        getMails s f { page := some p, pageSize := some size }
          = sliceSeq (s.mails.filter (fun m => mailMatches f m))
              ((p - 1) * size).toNat (p * size).toNat) ∧
    (∀ (s : MailState) (f : MailFilter) (p size : Int), 1 ≤ p → 0 ≤ size →
        ((s.mails.filter (fun m => mailMatches f m)).length : Int) ≤ (p - 1) * size →
        getMails s f { page := some p, pageSize := some size } = []) ∧
    (∀ (s : MailState) (f : MailFilter),
        getMails s f {} = getMails s f { page := some 1, pageSize := some 10 }) ∧
    (getMails exState3 {} { pageSize := some 1 }).map (fun m => m.subject) = [some "3"] ∧
    (getMails exState3 {} { page := some 3, pageSize := some 1 }).map (fun m => m.subject)
      = [some "1"] := by
  refine ⟨getMails_slice, ?_, fun s f => rfl, by decide, by decide⟩
  intro s f p size hp hs hlen
  rw [getMails_slice s f p size hp hs]
  unfold sliceSeq
  have hle : (s.mails.filter (fun m => mailMatches f m)).length ≤ ((p - 1) * size).toNat := by
    have h2 := Int.toNat_le_toNat hlen
    simpa using h2
  rw [List.drop_eq_nil_of_le hle, List.take_nil]

theorem getMails_pagination_correct_witness :
    ((1:Int) ≤ 3 ∧ (0:Int) ≤ 1) ∧
    getMails exState3 {} { page := some 3, pageSize := some 1 }
      = sliceSeq (exState3.mails.filter (fun m => mailMatches {} m))
          (((3:Int) - 1) * 1).toNat ((3:Int) * 1).toNat :=
  ⟨⟨by decide, by decide⟩,
    getMails_pagination_correct.1 exState3 {} 3 1 (by decide) (by decide)⟩

/-- C4: with an event target configured, each addMail issues exactly one
outbound call to that target whose events are one "delivered" object per
recipient address flattened across all personalizations' to-lists (two
recipients give exactly two events, in order), each carrying sg_message_id
equal to the supplied messageId (or the freshly generated one when absent)
and category equal to the record's categories (or the empty sequence);
without a target no dispatch happens. -/
theorem addMail_delivery_events_correct :
    (∀ (s : MailState) (rec : MailInput) (mid : Option String) (now : Int),
        s.eventUrl = none → (addMail s rec mid now).dispatch = none) ∧
    (∀ (s : MailState) (rec : MailInput) (mid : Option String) (now : Int) (url : String),
        s.eventUrl = some url →
        ∃ d : DispatchCall, (addMail s rec mid now).dispatch = some d ∧ d.url = url ∧
          d.events.length = (rec.personalizations.map (fun p => p.to.length)).sum ∧
          ∀ e ∈ d.events,
            assocLookup e "event" = some (JVal.str "delivered") ∧
            assocLookup e "sg_message_id"
              = some (JVal.str (mid.getD (genId (s.counter + 1)))) ∧
            assocLookup e "category" = some (JVal.arr (rec.categories.getD []))) ∧
    ((addMail (emptyState defaultRetentionMs (some "http://example.com")) (exRec "s")
        (some "msg-1") 0).dispatch.map (fun d => d.events.map (fun e => assocLookup e "email")))
      = some [some (JVal.str "to@example.com"), some (JVal.str "to2@example.com")] ∧
    ((addMail (emptyState defaultRetentionMs (some "http://example.com")) (exRec "s")
        none 0).dispatch.map (fun d => d.events.map (fun e => assocLookup e "sg_message_id")))
      = some [some (JVal.str "uuid-1"), some (JVal.str "uuid-1")] := by
  refine ⟨?_, ?_, by decide, by decide⟩
  · intro s rec mid now h
    simp [addMail, h]
  · intro s rec mid now url h
    refine ⟨{ url := url,
              events := (buildMailEvents rec.custom_args (rec.categories.getD [])
                (mid.getD (genId (s.counter + 1))) (now / 1000) rec.personalizations
                (s.counter + 2)).1 }, ?_, rfl, ?_, ?_⟩
    · simp [addMail, h]
    · exact buildMailEvents_length _ _ _ _ _ _
    · intro e he
      obtain ⟨p, hp, t, ht, c, rfl⟩ := buildMailEvents_mem _ _ _ _ _ _ e he
      obtain ⟨h1, h2, h3, h4, h5, h6, h7⟩ := assocLookup_buildEvent_reserved rec.custom_args
        p.custom_args t.email (now / 1000) (genId c) (mid.getD (genId (s.counter + 1)))
        (genId (c + 1)) (rec.categories.getD [])
      exact ⟨h2, h5, h7⟩

theorem addMail_delivery_events_correct_witness :
    (emptyState defaultRetentionMs (some "http://example.com")).eventUrl
        = some "http://example.com" ∧
    ∃ d : DispatchCall,
      (addMail (emptyState defaultRetentionMs (some "http://example.com")) (exRec "s")
          (some "msg-1") 0).dispatch = some d ∧
      d.url = "http://example.com" ∧
      d.events.length = ((exRec "s").personalizations.map (fun p => p.to.length)).sum ∧
      ∀ e ∈ d.events,
        assocLookup e "event" = some (JVal.str "delivered") ∧
        assocLookup e "sg_message_id"
          = some (JVal.str ((some "msg-1").getD
              (genId ((emptyState defaultRetentionMs (some "http://example.com")).counter + 1)))) ∧
        assocLookup e "category" = some (JVal.arr ((exRec "s").categories.getD [])) :=
  ⟨rfl, addMail_delivery_events_correct.2.1
    (emptyState defaultRetentionMs (some "http://example.com")) (exRec "s")
    (some "msg-1") 0 "http://example.com" rfl⟩

/-- C5: in every dispatched delivery-event object the seven reserved fields
are store-derived and cannot be overridden by caller-supplied custom
arguments at either level, while every non-reserved custom-argument key
passes through, personalization-level values taking precedence over
mail-level ones; and every event dispatched by addMail is such an object
built from the record's mail-level and personalization-level custom args. -/
theorem buildEvent_reserved_passthrough :
    (∀ (mailArgs persArgs : CustomArgs) (r : String) (ts : Int)
        (eventId msgId smtpId : String) (cats : List String),
        (assocLookup (buildEvent mailArgs persArgs r ts eventId msgId smtpId cats) "email"
            = some (JVal.str r) ∧
         assocLookup (buildEvent mailArgs persArgs r ts eventId msgId smtpId cats) "event"
            = some (JVal.str "delivered") ∧
         assocLookup (buildEvent mailArgs persArgs r ts eventId msgId smtpId cats) "timestamp"
            = some (JVal.num ts) ∧
         assocLookup (buildEvent mailArgs persArgs r ts eventId msgId smtpId cats) "sg_event_id"
            = some (JVal.str eventId) ∧
         assocLookup (buildEvent mailArgs persArgs r ts eventId msgId smtpId cats) "sg_message_id"
            = some (JVal.str msgId) ∧
         assocLookup (buildEvent mailArgs persArgs r ts eventId msgId smtpId cats) "smtp-id"
            = some (JVal.str smtpId) ∧
         assocLookup (buildEvent mailArgs persArgs r ts eventId msgId smtpId cats) "category"
            = some (JVal.arr cats)) ∧
        (∀ k, k ∉ reservedKeys → (persArgs.map Prod.fst).Nodup →
          assocLookup (buildEvent mailArgs persArgs r ts eventId msgId smtpId cats) k
            = optOr (assocLookup persArgs k) (assocLookup mailArgs k))) ∧
    (∀ (s : MailState) (rec : MailInput) (mid : Option String) (now : Int) (d : DispatchCall),
        (addMail s rec mid now).dispatch = some d →
        ∀ e ∈ d.events, ∃ p ∈ rec.personalizations, ∃ t ∈ p.to, ∃ c : Nat,
          e = buildEvent rec.custom_args p.custom_args t.email (now / 1000) (genId c)
            (mid.getD (genId (s.counter + 1))) (genId (c + 1)) (rec.categories.getD [])) := by
  constructor
  · intro mailArgs persArgs r ts eventId msgId smtpId cats
    refine ⟨assocLookup_buildEvent_reserved mailArgs persArgs r ts eventId msgId smtpId cats,
      ?_⟩
    intro k hk hnd
    rw [assocLookup_buildEvent_not_reserved mailArgs persArgs r ts eventId msgId smtpId cats
      k hk, revLookup_eq_assocLookup persArgs k hnd]
  · intro s rec mid now d hd e he
    cases hu : s.eventUrl with
    | none =>
      have hnone : (addMail s rec mid now).dispatch = none := by simp [addMail, hu]
      rw [hnone] at hd
      cases hd
    | some url =>
      have hdisp : (addMail s rec mid now).dispatch
          = some { url := url,
                   events := (buildMailEvents rec.custom_args (rec.categories.getD [])
                     (mid.getD (genId (s.counter + 1))) (now / 1000) rec.personalizations
                     (s.counter + 2)).1 } := by
        simp [addMail, hu]
      rw [hdisp] at hd
      have hd2 := Option.some.inj hd
      rw [← hd2] at he
      exact buildMailEvents_mem _ _ _ _ _ _ e he

theorem buildEvent_reserved_passthrough_witness :
    ("user_id" ∉ reservedKeys ∧
      ((([("user_id", JVal.str "2455")] : CustomArgs).map Prod.fst).Nodup)) ∧
    assocLookup (buildEvent [("user_id", JVal.str "12345")] [("user_id", JVal.str "2455")]
        "to@example.com" 0 "e1" "m1" "s1" ["important"]) "user_id"
      = optOr (assocLookup [("user_id", JVal.str "2455")] "user_id")
          (assocLookup [("user_id", JVal.str "12345")] "user_id") :=
  ⟨⟨by decide, by decide⟩,
    (buildEvent_reserved_passthrough.1 [("user_id", JVal.str "12345")]
      [("user_id", JVal.str "2455")] "to@example.com" 0 "e1" "m1" "s1" ["important"]).2
      "user_id" (by decide) (by decide)⟩

/-- C6: deleteMailById returns true and removes exactly the one record with
the given id when present (the rest of the collection and configuration
unchanged), and returns false leaving the store untouched when no record has
that id, including on an empty store. -/
theorem deleteMailById_correct (s : MailState) (mid : String) :
    ((∀ m ∈ s.mails, m.id ≠ mid) → deleteMailById s mid = (false, s)) ∧
    ((∃ m ∈ s.mails, m.id = mid) →
      (deleteMailById s mid).1 = true ∧
      (deleteMailById s mid).2.retention = s.retention ∧
      (deleteMailById s mid).2.eventUrl = s.eventUrl ∧
      ∃ l1 m l2, s.mails = l1 ++ m :: l2 ∧ m.id = mid ∧ (∀ x ∈ l1, x.id ≠ mid) ∧
        (deleteMailById s mid).2.mails = l1 ++ l2) := by
  constructor
  · intro hall
    unfold deleteMailById
    rw [(removeFirstById_eq_none mid s.mails).mpr hall]
  · intro hex
    cases hr : removeFirstById s.mails mid with
    | none =>
      obtain ⟨m, hm, hid⟩ := hex
      exact absurd hid ((removeFirstById_eq_none mid s.mails).mp hr m hm)
    | some l =>
      obtain ⟨l1, m, l2, heq, hid, hno, hr2⟩ := removeFirstById_eq_some mid s.mails l hr
      unfold deleteMailById
      rw [hr]
      exact ⟨rfl, rfl, rfl, l1, m, l2, heq, hid, hno, by simp [hr2]⟩

theorem deleteMailById_correct_witness :
    (∃ m ∈ exState3.mails, m.id = "uuid-0") ∧
    ((deleteMailById exState3 "uuid-0").1 = true ∧
      (deleteMailById exState3 "uuid-0").2.retention = exState3.retention ∧
      (deleteMailById exState3 "uuid-0").2.eventUrl = exState3.eventUrl ∧
      ∃ l1 m l2, exState3.mails = l1 ++ m :: l2 ∧ m.id = "uuid-0" ∧
        (∀ x ∈ l1, x.id ≠ "uuid-0") ∧
        (deleteMailById exState3 "uuid-0").2.mails = l1 ++ l2) :=
  ⟨by decide, (deleteMailById_correct exState3 "uuid-0").2 (by decide)⟩

/-- C7: clear with a `to` filter removes exactly the records matching that
filter under the same match rule as getMails and keeps every other record;
clear with no filter removes all records; and clear is idempotent — clearing
an already-empty store, or clearing twice with the same filter, is a no-op
that raises no error. -/
theorem clear_correct (s : MailState) (v : String) :
    (∀ m : Mail, m ∈ (clear s (some v)).mails ↔
        (m ∈ s.mails ∧ ¬ ∃ p ∈ m.personalizations, ∃ t ∈ p.to, MatchStr v t.email)) ∧
    (clear s none).mails = [] ∧
    clear (clear s (some v)) (some v) = clear s (some v) ∧
    clear (clear s none) none = clear s none ∧
    (s.mails = [] → clear s (some v) = s) := by
  refine ⟨?_, rfl, ?_, rfl, ?_⟩
  · intro m
    constructor
    · intro hm
      have h2 := List.mem_filter.mp hm
      refine ⟨h2.1, fun hex => ?_⟩
      have h3 := (toFieldMatches_iff v m).mpr hex
      rw [h3] at h2
      exact absurd h2.2 (by simp)
    · rintro ⟨hmem, hnex⟩
      apply List.mem_filter.mpr
      refine ⟨hmem, ?_⟩
      cases hb : toFieldMatches v m with
      | false => rfl
      | true => exact absurd ((toFieldMatches_iff v m).mp hb) hnex
  · show ({ s with mails := _ } : MailState) = _
    simp [clear, List.filter_filter]
  · intro h
    have h2 : s.mails.filter (fun m => ! toFieldMatches v m) = s.mails := by
      rw [h]
      rfl
    show ({ s with mails := s.mails.filter (fun m => ! toFieldMatches v m) } : MailState) = s
    rw [h2]

theorem clear_correct_witness :
    (exState3.mails = [] → clear exState3 (some "%sonic%") = exState3) ∧
    (clear exState3 none).mails = [] :=
  ⟨(clear_correct exState3 "%sonic%").2.2.2.2, (clear_correct exState3 "%sonic%").2.1⟩

/-- C8: constructing the store with retention-duration text that is not a
valid ISO-8601 duration fails at construction time with InvalidConfiguration
(the parsed window is fixed in the state, so the failure is never deferred to
insert time), while a valid duration or an absent one (defaulting to 24
hours) succeeds. -/
theorem mkMailHandler_config_correct :
    (∀ (txt : String) (u : Option String), parseISODuration txt = none →
        mkMailHandler (some txt) u = Except.error ConfigError.invalidConfiguration) ∧
    (∀ (txt : String) (u : Option String) (d : Int), parseISODuration txt = some d →
        mkMailHandler (some txt) u = Except.ok (emptyState d u)) ∧
    (∀ u : Option String, mkMailHandler none u = Except.ok (emptyState defaultRetentionMs u)) ∧
    parseISODuration "not-a-duration" = none ∧
    parseISODuration "PT24H" = some 86400000 ∧
    parseISODuration "PT10S" = some 10000 := by
  refine ⟨?_, ?_, fun u => rfl, by decide, by decide, by decide⟩
  · intro txt u h
    simp [mkMailHandler, h]
  · intro txt u d h
    simp [mkMailHandler, h]

theorem mkMailHandler_config_correct_witness :
    parseISODuration "not-a-duration" = none ∧
    mkMailHandler (some "not-a-duration") none
      = Except.error ConfigError.invalidConfiguration :=
  ⟨by decide, mkMailHandler_config_correct.1 "not-a-duration" none (by decide)⟩

/-- C9: getMails never mutates the store — it only returns (a slice of) the
stored collection, performs no expiry sweep, and in particular records older
than the retention window stay readable until a later addMail sweeps them
out. -/
theorem getMails_no_mutation :
    (∀ (s : MailState) (f : MailFilter) (pg : Pagination),
        List.Sublist (getMails s f pg) s.mails) ∧
    (∀ s : MailState,
        getMails s {} { page := some 1, pageSize := some ((s.mails.length : Int)) }
          = s.mails) ∧
    getMails expiredStateEx {} {} = [oldMailEx] ∧
    (addMail expiredStateEx (exRec "new") none 172800000).state.mails.map (fun m => m.subject)
      = [some "new"] := by
  refine ⟨getMails_sublist, ?_, by decide, by decide⟩
  intro s
  rw [getMails_full s {}, filter_mailMatches_empty]

theorem getMails_no_mutation_witness :
    List.Sublist (getMails expiredStateEx {} {}) expiredStateEx.mails :=
  getMails_no_mutation.1 expiredStateEx {} {}

/-- C10: the GET /api/mails route, when the query string carries no `page`
parameter, calls the store's getMails with pagination page 0 (not 1) and a
pageSize defaulting to 10, so the response body equals the store's result for
page 0 of the filtered sequence. -/
theorem handleGetMails_default_page_zero (s : MailState) (q : MailsQuery)
    (h : q.page = none) :
    handleGetMails s q
      = getMails s { «to» := q.to, subject := q.subject, dateTimeSince := q.dateTimeSince }
          { page := some 0, pageSize := some (q.pageSize.getD 10) } := by
  simp [handleGetMails, h]

theorem handleGetMails_default_page_zero_witness :
    (({} : MailsQuery).page = none) ∧
    handleGetMails exState3 {}
      = getMails exState3 { «to» := none, subject := none, dateTimeSince := none }
          { page := some 0, pageSize := some 10 } :=
  ⟨rfl, handleGetMails_default_page_zero exState3 {} rfl⟩

end MailersMock
